import Mathlib

/-!
Verification of the typed generational arena allocator
(`src/allocator/arena.rs`, `src/allocator/address.rs`).

Shallow embedding conventions:
* Entity values are modelled as `Nat` (the allocator is fully parametric in
  the entity payload; no operation inspects it).
* Rust type identities (`TypeId`) are modelled as `Nat`; the `DefaultHasher`
  hash of a `TypeId`, used as the stable group identity, is modelled as the
  identity function on that `Nat`.
* The `anymap::Map` registry is a function `Nat → Option LocationGroup`.
* Rust `Vec` push/pop act on the end of the vector; here the head of a list
  is the top of the stack, which has identical LIFO semantics.
* The shared `Rc<RefCell<i16>>` reference counters live in a `World` as a
  store `Nat → Int` indexed by counter identity.  `Int` arithmetic
  coincides exactly with the source's `i16` arithmetic as long as every
  value stays inside `[-32768, 32767]`; beyond that range the source
  overflows (a panic in debug builds, a two's-complement wrap in release
  builds).  The theorems whose conclusions state counter values therefore
  carry explicit bounds keeping every count they reach inside that range,
  or touch only the concrete counts 0 and 1 where the two agree; the
  trace-level theorems only case-split on whether a drop reached zero and
  hold for either outcome.
* Source `unwrap`s and vector indexing panic on forged addresses; those
  branches are modelled as `none` (for `get`/`allocate`) or as leaving the
  state unchanged (for `free`), and the theorems carry hypotheses that
  exclude them, matching the source comments that declare them unreachable.
-/

namespace ArenaAlloc

/-- One storage cell inside a group's slot array: a generation counter plus
an entity value.  Mirrors `Location<T>` in `arena.rs` (the `RefCell` around
`generation` is interior mutability only). -/
structure Location where
  generation : Nat
  entity : Nat
deriving DecidableEq

/-- Per-type slot array plus the free-index stack and the group's stable
identity hash.  Mirrors `LocationGroup<T>` in `arena.rs` (the `arena`
back-pointer is not part of the value state). -/
structure LocationGroup where
  locations : List Location
  free_indexes : List Nat
  type_id_hash : Nat
deriving DecidableEq

/-- The arena: the registry from type identity to its group, the capacity
hint, and the identities of torn-down groups.  Mirrors `Arena` in
`arena.rs`. -/
structure Arena where
  data : Nat → Option LocationGroup
  capacity : Nat
  freed_groups : List Nat

/-- Mirrors `DEFAULT_CAPACITY` in `arena.rs`. -/
def DEFAULT_CAPACITY : Nat := 16

/-- Mirrors `Arena::new`. -/
def Arena.new (capacity : Nat) : Arena :=
  { data := fun _ => none, capacity := capacity, freed_groups := [] }

/-- Mirrors `Arena::default`. -/
def Arena.defaultArena : Arena := Arena.new DEFAULT_CAPACITY

/-- Mirrors `LocationGroup::new`; the capacity argument only pre-sizes the
backing vectors and has no semantic effect on the list model. -/
def LocationGroup.new (_capacity : Nat) (type_id_hash : Nat) : LocationGroup :=
  { locations := [], free_indexes := [], type_id_hash := type_id_hash }

/-- Mirrors `Address<T>` in `address.rs`: expected generation, index, the
type identity (`PhantomData` phantom type), and the identity of the shared
`Rc<RefCell<i16>>` counter cell (the `arena` raw pointer is the enclosing
`World`). -/
structure Address where
  generation : Nat
  index : Nat
  tyId : Nat
  rcId : Nat
deriving DecidableEq

/-- Pointwise update of the registry function (an `anymap` insert). -/
def updateFn (f : Nat → Option LocationGroup) (k : Nat) (v : LocationGroup) :
    Nat → Option LocationGroup :=
  fun t => if t = k then some v else f t

/-- Mirrors `Arena::get`: look up `T`'s group and the slot at
`address.index`; return the entity iff the slot's generation equals the
address's generation.  The source `unwrap`s the group lookup and indexes the
vector (panicking on a forged address); both cases are modelled as `none`.
Takes `&self` in the source: read-only, no state is changed. -/
def Arena.get (a : Arena) (address : Address) : Option Nat :=
  match a.data address.tyId with
  | none => none
  | some group =>
    match group.locations.get? address.index with
    | none => none
    | some item =>
      if item.generation = address.generation then some item.entity else none

/-- Mirrors `Arena::get_mut`: the same validity check as `Arena::get`; the
source returns `&mut T` and mutation happens only through that borrow, so
the operation itself changes no slot, generation or free-index stack. -/
def Arena.get_mut (a : Arena) (address : Address) : Option Nat :=
  match a.data address.tyId with
  | none => none
  | some group =>
    match group.locations.get? address.index with
    | none => none
    | some item =>
      if item.generation = address.generation then some item.entity else none

/-- Mirrors `Arena::allocate`, split into the arena-state part: locate or
create `T`'s group; pop a free index and overwrite that slot's entity
keeping its generation, or append a new slot with generation 0.  Returns the
new arena together with the `(generation, index)` pair put into the returned
`Address` (the fresh reference counter is created in `World.allocate`).  The
source indexes `group.locations[idx]` with the popped free index; an
out-of-range popped index would panic and is modelled as `none`. -/
def Arena.allocate (a : Arena) (tyId : Nat) (v : Nat) :
    Option (Arena × Nat × Nat) :=
  let st :=
    match a.data tyId with
    | some g => (a, g)
    | none =>
      let g := LocationGroup.new a.capacity tyId
      ({ a with data := updateFn a.data tyId g }, g)
  match st.2.free_indexes with
  | idx :: rest =>
    match st.2.locations.get? idx with
    | none => none
    | some location =>
      let group' : LocationGroup :=
        { st.2 with
          free_indexes := rest
          locations := st.2.locations.set idx
            { location with entity := v } }
      some ({ st.1 with data := updateFn st.1.data tyId group' },
            location.generation, idx)
  | [] =>
    let group' : LocationGroup :=
      { st.2 with
        locations := st.2.locations ++ [{ generation := 0, entity := v }] }
    some ({ st.1 with data := updateFn st.1.data tyId group' },
          0, st.2.locations.length)

/-- Mirrors `Arena::free`: if the group's identity hash is recorded in
`freed_groups`, do nothing; otherwise, if the slot's generation equals the
address's generation, push the index onto the free stack and increment the
slot's generation by 1; if the generation differs, do nothing.  The source
`unwrap`s the group and indexes the slot vector; those panic cases (forged
addresses) are modelled as leaving the arena unchanged. -/
def Arena.free (a : Arena) (address : Address) : Arena :=
  match a.data address.tyId with
  | none => a
  | some group =>
    if group.type_id_hash ∈ a.freed_groups then a
    else
      match group.locations.get? address.index with
      | none => a
      | some location =>
        if location.generation = address.generation then
          let group' : LocationGroup :=
            { group with
              free_indexes := address.index :: group.free_indexes
              locations := group.locations.set address.index
                { location with generation := location.generation + 1 } }
          { a with data := updateFn a.data address.tyId group' }
        else a

/-- The generation currently stored at `(ty, i)`, when that slot exists. -/
def slotGen (a : Arena) (ty i : Nat) : Option Nat :=
  match a.data ty with
  | none => none
  | some g => (g.locations.get? i).map Location.generation

/-- The entity currently stored at `(ty, i)`, when that slot exists. -/
def slotVal (a : Arena) (ty i : Nat) : Option Nat :=
  match a.data ty with
  | none => none
  | some g => (g.locations.get? i).map Location.entity

/-- Decidable well-formedness of one registry entry: every index on the free
stack is in bounds of the slot array (the source maintains this because only
`free` pushes, with an index it has just read). -/
def wfAt (a : Arena) (ty : Nat) : Bool :=
  match a.data ty with
  | none => true
  | some g => g.free_indexes.all (fun i => decide (i < g.locations.length))

/-- Decidable liveness of a group: it exists and its identity hash is not
recorded among the torn-down groups. -/
def groupLive (a : Arena) (ty : Nat) : Bool :=
  match a.data ty with
  | none => false
  | some g => !(a.freed_groups.contains g.type_id_hash)

/-- A world: the arena plus the store of shared `Rc<RefCell<i16>>` reference
counters.  Each counter cell is identified by a `Nat`; `counters` gives the
count held in each cell and `nextRc` the next fresh identity.  The `Int`
values are exact images of the source's `i16` counts only while they remain
inside `[-32768, 32767]`; the counting theorems below carry bounds that keep
every count they reach in that range. -/
structure World where
  arena : Arena
  counters : Nat → Int
  nextRc : Nat

/-- Pointwise update of the counter store. -/
def updCnt (f : Nat → Int) (k : Nat) (v : Int) : Nat → Int :=
  fun t => if t = k then v else f t

/-- `Arena::allocate` at the world level: the returned `Address` carries a
fresh shared counter cell initialised to 1 (`Rc::new(RefCell::new(1))` in
the source). -/
def World.allocate (w : World) (tyId : Nat) (v : Nat) :
    Option (World × Address) :=
  match w.arena.allocate tyId v with
  | none => none
  | some (a, generation, index) =>
    some ({ arena := a, counters := updCnt w.counters w.nextRc 1,
            nextRc := w.nextRc + 1 },
          { generation := generation, index := index, tyId := tyId,
            rcId := w.nextRc })

/-- Mirrors `Address::get`: delegates to `Arena::get` through the stored
arena pointer. -/
def Address.get (w : World) (ad : Address) : Option Nat :=
  w.arena.get ad

/-- Mirrors `Address::get_mut`: delegates to `Arena::get_mut`. -/
def Address.get_mut (w : World) (ad : Address) : Option Nat :=
  w.arena.get_mut ad

/-- Mirrors `Address::copy`: increments the shared counter; the returned
address has identical generation/index/type and shares the same counter
cell, so it is the very same `Address` value of this model.  The increment
mirrors the source's `i16 += 1` and is exact while the count stays at most
32767; the theorems that count copies are bounded accordingly. -/
def Address.copy (w : World) (ad : Address) : World × Address :=
  ({ w with counters := updCnt w.counters ad.rcId (w.counters ad.rcId + 1) },
   ad)

/-- Mirrors the derived `Clone` of `Address` (`#[derive(Clone)]`): every
field is cloned; cloning the `Rc<RefCell<i16>>` shares the same cell without
changing the `i16` inside it, so the clone is field-for-field identical and
the counter store is untouched. -/
def Address.clone (w : World) (ad : Address) : World × Address := (w, ad)

/-- Mirrors `Drop for Address`: decrement the shared counter; exactly when
it reaches 0, call `Arena::free`.  The decrement mirrors the source's
`i16 -= 1` and is exact while the count stays at least -32768; the theorems
that count drops are bounded accordingly. -/
def Address.drop (w : World) (ad : Address) : World :=
  let c := w.counters ad.rcId - 1
  let w' : World := { w with counters := updCnt w.counters ad.rcId c }
  if c = 0 then { w' with arena := w'.arena.free ad } else w'

/-- Mirrors `Address::remove`: set the shared counter to the sentinel `-1`
and call `Arena::free` immediately, regardless of outstanding copies. -/
def Address.remove (w : World) (ad : Address) : World :=
  let w' : World := { w with counters := updCnt w.counters ad.rcId (-1) }
  { w' with arena := w'.arena.free ad }

/-- Apply `Address::copy` to the same logical handle `n` times. -/
def copyN (w : World) (ad : Address) : Nat → World
  | 0 => w
  | n + 1 => copyN (Address.copy w ad).1 ad n

/-- Drop `n` copies of the same logical handle, one after the other. -/
def dropN (w : World) (ad : Address) : Nat → World
  | 0 => w
  | n + 1 => dropN (Address.drop w ad) ad n

/-- The mutating operations of the public API, as observable events: an
allocation, an explicit `copy`, a derived `clone`, a `Drop`, or a `remove`.
`get`/`get_mut` are read-only and change no state, so they need no event. -/
inductive Op where
  | alloc (tyId v : Nat)
  | copyOp (ad : Address)
  | cloneOp (ad : Address)
  | dropOp (ad : Address)
  | removeOp (ad : Address)
deriving DecidableEq

/-- Record a newly issued generation for `(ty, i)` at the head of its
issuance history (ghost state; newest first). -/
def updateIss (iss : Nat → Nat → List Nat) (ty i gen : Nat) :
    Nat → Nat → List Nat :=
  fun t j => if t = ty ∧ j = i then gen :: iss t j else iss t j

/-- A world instrumented with the ghost history of generations issued per
`(type, index)` pair (newest first). -/
structure TState where
  world : World
  issued : Nat → Nat → List Nat

/-- One step of the instrumented semantics: run the operation on the world
and record the generation of any address handed out by an allocation.  An
allocation that would panic (forged free index, unreachable from the initial
state) leaves the state unchanged. -/
def TState.step (s : TState) : Op → TState
  | .alloc ty v =>
    match s.world.allocate ty v with
    | none => s
    | some (w', ad) =>
      { world := w', issued := updateIss s.issued ty ad.index ad.generation }
  | .copyOp ad => { s with world := (Address.copy s.world ad).1 }
  | .cloneOp ad => { s with world := (Address.clone s.world ad).1 }
  | .dropOp ad => { s with world := Address.drop s.world ad }
  | .removeOp ad => { s with world := Address.remove s.world ad }

/-- Run a list of operations from a state. -/
def TState.run (s : TState) : List Op → TState
  | [] => s
  | op :: tr => TState.run (s.step op) tr

/-- The initial instrumented state: a fresh `Arena::new(cap)`, all counter
cells zero, nothing issued. -/
def TState.init (cap : Nat) : TState :=
  { world := { arena := Arena.new cap, counters := fun _ => 0, nextRc := 0 },
    issued := fun _ _ => [] }

/-- The state reached after a trace of operations on a fresh arena. -/
def reach (cap : Nat) (tr : List Op) : TState :=
  TState.run (TState.init cap) tr

/-- Run a trace of operations on a bare world (no ghost history needed). -/
def runFrom (w : World) (tr : List Op) : World :=
  (TState.run { world := w, issued := fun _ _ => [] } tr).world

/-- An operation is well-formed in a state when every address it destroys
was actually issued by some allocation (the API hands out addresses only
through `allocate`; `Drop`/`remove` of a forged address is outside the
library's contract). -/
def opOk (s : TState) : Op → Bool
  | .dropOp ad => (s.issued ad.tyId ad.index).contains ad.generation
  | .removeOp ad => (s.issued ad.tyId ad.index).contains ad.generation
  | _ => true

/-- Every operation of the trace is well-formed in the state it runs in. -/
def traceOk (s : TState) : List Op → Bool
  | [] => true
  | op :: tr => opOk s op && traceOk (s.step op) tr

/-- Invariant tying one group to the issuance history of its type: the free
stack is duplicate-free and in bounds, every issued generation is bounded by
the slot's current generation (strictly, if the index sits on the free
stack), and each index's issuance history (newest first) is strictly
decreasing towards the past. -/
def GroupInv (g : LocationGroup) (iss : Nat → List Nat) : Prop :=
  g.free_indexes.Nodup ∧
  (∀ i ∈ g.free_indexes, i < g.locations.length) ∧
  (∀ i, ∀ gen ∈ iss i, ∃ loc, g.locations.get? i = some loc ∧
    gen ≤ loc.generation ∧ (i ∈ g.free_indexes → gen < loc.generation)) ∧
  (∀ i, (iss i).Pairwise (fun x y => y < x))

/-- The arena-wide invariant: types without a group have an empty issuance
history, and every existing group satisfies `GroupInv`. -/
def ArenaInv (a : Arena) (iss : Nat → Nat → List Nat) : Prop :=
  (∀ ty, a.data ty = none → ∀ i, iss ty i = []) ∧
  (∀ ty g, a.data ty = some g → GroupInv g (iss ty))

/-- The invariant of the instrumented semantics. -/
def Inv (s : TState) : Prop :=
  ArenaInv s.world.arena s.issued

/-- A concrete fresh world used to instantiate theorems. -/
def testWorld : World :=
  { arena := Arena.new 16, counters := fun _ => 0, nextRc := 0 }

/-- Allocation as a total function for building concrete test states (the
default branch is never taken on the states used). -/
def allocPair (w : World) (tyId v : Nat) : World × Address :=
  (w.allocate tyId v).getD (w, { generation := 0, index := 0, tyId := tyId, rcId := 0 })

/-- The world after allocating entity `5` of type `0` in a fresh arena. -/
def testW1 : World := (allocPair testWorld 0 5).1

/-- The address returned by that allocation. -/
def testH1 : Address := (allocPair testWorld 0 5).2

/-! ### Characterisation lemmas for the arena operations -/

theorem get_mut_eq_get (a : Arena) (ad : Address) : a.get_mut ad = a.get ad := rfl

theorem get_eq_of_loc (a : Arena) (ad : Address) (group : LocationGroup)
    (loc : Location) (hd : a.data ad.tyId = some group)
    (hl : group.locations.get? ad.index = some loc) :
    a.get ad = if loc.generation = ad.generation then some loc.entity else none := by
  simp only [Arena.get, hd, hl]

theorem slotGen_eq_some (a : Arena) (ty i g : Nat) :
    slotGen a ty i = some g ↔ ∃ group loc, a.data ty = some group ∧
      group.locations.get? i = some loc ∧ loc.generation = g := by
  unfold slotGen
  cases hd : a.data ty with
  | none => simp
  | some group =>
    simp only [Option.map_eq_some', Option.some.injEq]
    constructor
    · rintro ⟨loc, hl, hg⟩
      exact ⟨group, loc, rfl, hl, hg⟩
    · rintro ⟨group', loc, hgg, hl, hg⟩
      cases hgg
      exact ⟨loc, hl, hg⟩

theorem get_none_of_gen_ne (a : Arena) (ad : Address) (g : Nat)
    (hg : slotGen a ad.tyId ad.index = some g) (hne : g ≠ ad.generation) :
    a.get ad = none := by
  obtain ⟨group, loc, hd, hl, hlg⟩ := (slotGen_eq_some a ad.tyId ad.index g).mp hg
  rw [get_eq_of_loc a ad group loc hd hl, if_neg (by omega)]

theorem free_torn (a : Arena) (ad : Address) (group : LocationGroup)
    (hd : a.data ad.tyId = some group)
    (hmem : group.type_id_hash ∈ a.freed_groups) :
    a.free ad = a := by
  simp only [Arena.free, hd, hmem, if_true, ite_true]

theorem free_noloc (a : Arena) (ad : Address) (group : LocationGroup)
    (hd : a.data ad.tyId = some group)
    (hl : group.locations.get? ad.index = none) :
    a.free ad = a := by
  by_cases hmem : group.type_id_hash ∈ a.freed_groups
  · exact free_torn a ad group hd hmem
  · simp only [Arena.free, hd, hmem, if_false, ite_false, hl]

theorem free_nogroup (a : Arena) (ad : Address) (hd : a.data ad.tyId = none) :
    a.free ad = a := by
  simp only [Arena.free, hd]

theorem free_stale (a : Arena) (ad : Address) (group : LocationGroup)
    (loc : Location) (hd : a.data ad.tyId = some group)
    (hl : group.locations.get? ad.index = some loc)
    (hne : loc.generation ≠ ad.generation) :
    a.free ad = a := by
  by_cases hmem : group.type_id_hash ∈ a.freed_groups
  · exact free_torn a ad group hd hmem
  · simp only [Arena.free, hd, hmem, if_false, ite_false, hl, hne]

theorem free_acts (a : Arena) (ad : Address) (group : LocationGroup)
    (loc : Location) (hd : a.data ad.tyId = some group)
    (hl : group.locations.get? ad.index = some loc)
    (hnm : group.type_id_hash ∉ a.freed_groups)
    (heq : loc.generation = ad.generation) :
    a.free ad = { a with
      data := updateFn a.data ad.tyId
        { group with
          free_indexes := ad.index :: group.free_indexes
          locations := group.locations.set ad.index
            { loc with generation := loc.generation + 1 } } } := by
  simp only [Arena.free, hd, hl, hnm, if_false, ite_false, heq, if_true, ite_true]

theorem allocate_reuse_eq (a : Arena) (tyId v : Nat) (group : LocationGroup)
    (idx0 : Nat) (rest : List Nat) (loc : Location)
    (hd : a.data tyId = some group) (hf : group.free_indexes = idx0 :: rest)
    (hl : group.locations.get? idx0 = some loc) :
    a.allocate tyId v = some ({ a with
      data := updateFn a.data tyId
        { group with
          free_indexes := rest
          locations := group.locations.set idx0 { loc with entity := v } } },
      loc.generation, idx0) := by
  simp only [Arena.allocate, hd, hf, hl]

theorem allocate_noloc_eq (a : Arena) (tyId v : Nat) (group : LocationGroup)
    (idx0 : Nat) (rest : List Nat)
    (hd : a.data tyId = some group) (hf : group.free_indexes = idx0 :: rest)
    (hl : group.locations.get? idx0 = none) :
    a.allocate tyId v = none := by
  simp only [Arena.allocate, hd, hf, hl]

theorem allocate_append_eq (a : Arena) (tyId v : Nat) (group : LocationGroup)
    (hd : a.data tyId = some group) (hf : group.free_indexes = []) :
    a.allocate tyId v = some ({ a with
      data := updateFn a.data tyId
        { group with locations := group.locations ++ [⟨0, v⟩] } },
      0, group.locations.length) := by
  simp only [Arena.allocate, hd, hf]

theorem allocate_fresh_eq (a : Arena) (tyId v : Nat) (hd : a.data tyId = none) :
    a.allocate tyId v = some ({ a with
      data := updateFn (updateFn a.data tyId ⟨[], [], tyId⟩) tyId
        ⟨[⟨0, v⟩], [], tyId⟩ }, 0, 0) := by
  simp only [Arena.allocate, hd, LocationGroup.new, List.nil_append,
    List.length_nil]

/-- Exhaustive case analysis of a successful allocation: reuse of a freed
index, append to an existing group, or creation of a fresh group. -/
theorem allocate_cases (a : Arena) (tyId v : Nat) (a' : Arena)
    (gen idx : Nat) (hal : a.allocate tyId v = some (a', gen, idx)) :
    (∃ group loc rest, a.data tyId = some group ∧
      group.free_indexes = idx :: rest ∧
      group.locations.get? idx = some loc ∧ gen = loc.generation ∧
      a' = { a with
        data := updateFn a.data tyId
          { group with
            free_indexes := rest
            locations := group.locations.set idx
              { loc with entity := v } } }) ∨
    (∃ group, a.data tyId = some group ∧ group.free_indexes = [] ∧
      idx = group.locations.length ∧ gen = 0 ∧
      a' = { a with
        data := updateFn a.data tyId
          { group with locations := group.locations ++ [⟨0, v⟩] } }) ∨
    (a.data tyId = none ∧ idx = 0 ∧ gen = 0 ∧
      a' = { a with
        data := updateFn (updateFn a.data tyId ⟨[], [], tyId⟩) tyId
          ⟨[⟨0, v⟩], [], tyId⟩ }) := by
  cases hd : a.data tyId with
  | none =>
    rw [allocate_fresh_eq a tyId v hd] at hal
    cases hal
    exact Or.inr (Or.inr ⟨rfl, rfl, rfl, rfl⟩)
  | some group =>
    cases hf : group.free_indexes with
    | nil =>
      rw [allocate_append_eq a tyId v group hd hf] at hal
      cases hal
      exact Or.inr (Or.inl ⟨group, rfl, hf, rfl, rfl, rfl⟩)
    | cons idx0 rest =>
      cases hl : group.locations.get? idx0 with
      | none =>
        rw [allocate_noloc_eq a tyId v group idx0 rest hd hf hl] at hal
        cases hal
      | some loc =>
        rw [allocate_reuse_eq a tyId v group idx0 rest loc hd hf hl] at hal
        cases hal
        exact Or.inl ⟨group, loc, rest, rfl, hf, hl, rfl, rfl⟩

theorem allocate_data_other (a : Arena) (tyId v : Nat) (a' : Arena)
    (gen idx : Nat) (hal : a.allocate tyId v = some (a', gen, idx))
    (ty : Nat) (hty : ty ≠ tyId) : a'.data ty = a.data ty := by
  rcases allocate_cases a tyId v a' gen idx hal with
    ⟨g, loc, rest, hd, hf, hl, hg, ha⟩ | ⟨g, hd, hf, hi, hg, ha⟩ |
    ⟨hd, hi, hg, ha⟩ <;> subst ha <;> simp [updateFn, hty]

theorem allocate_freed_groups (a : Arena) (tyId v : Nat) (a' : Arena)
    (gen idx : Nat) (hal : a.allocate tyId v = some (a', gen, idx)) :
    a'.freed_groups = a.freed_groups := by
  rcases allocate_cases a tyId v a' gen idx hal with
    ⟨g, loc, rest, hd, hf, hl, hg, ha⟩ | ⟨g, hd, hf, hi, hg, ha⟩ |
    ⟨hd, hi, hg, ha⟩ <;> subst ha <;> rfl

theorem free_data_other (a : Arena) (ad : Address) (ty : Nat)
    (hty : ty ≠ ad.tyId) : (a.free ad).data ty = a.data ty := by
  unfold Arena.free
  split
  · rfl
  · split
    · rfl
    · split
      · rfl
      · split
        · simp [updateFn, hty]
        · rfl

theorem free_freed_groups (a : Arena) (ad : Address) :
    (a.free ad).freed_groups = a.freed_groups := by
  unfold Arena.free
  split
  · rfl
  · split
    · rfl
    · split
      · rfl
      · split
        · rfl
        · rfl

/-! ### Claim theorems: stale detection on `get`/`get_mut` (C3), `free` (C5),
type isolation (C10) -/

/-- C3: for a handle whose type group exists and whose index is in bounds,
`get` returns the slot's stored entity iff the slot's current generation
equals the handle's expected generation, and returns `none` otherwise;
`get_mut` performs the identical check (in this pure model both operations
are functions of the arena and change nothing). -/
theorem get_generation_check (a : Arena) (ad : Address) (group : LocationGroup)
    (loc : Location) (hgrp : a.data ad.tyId = some group)
    (hloc : group.locations.get? ad.index = some loc) :
    (a.get ad = some loc.entity ↔ loc.generation = ad.generation) ∧
    (loc.generation ≠ ad.generation → a.get ad = none) ∧
    a.get_mut ad = a.get ad := by
  refine ⟨?_, ?_, rfl⟩
  · rw [get_eq_of_loc a ad group loc hgrp hloc]
    by_cases h : loc.generation = ad.generation
    · simp [h]
    · simp [h]
  · intro h
    rw [get_eq_of_loc a ad group loc hgrp hloc, if_neg h]

/-- Witness for C3 at a concrete state: a fresh arena after one allocation. -/
theorem get_generation_check_witness :
    testW1.arena.data testH1.tyId = some ⟨[⟨0, 5⟩], [], 0⟩ ∧
    (⟨[⟨0, 5⟩], [], 0⟩ : LocationGroup).locations.get? testH1.index =
      some ⟨0, 5⟩ ∧
    (testW1.arena.get testH1 = some (Location.mk 0 5).entity ↔
      (Location.mk 0 5).generation = testH1.generation) :=
  ⟨rfl, rfl,
    (get_generation_check testW1.arena testH1 ⟨[⟨0, 5⟩], [], 0⟩ ⟨0, 5⟩
      rfl rfl).1⟩

/-- C5: `free` is a no-op when the group's identity is recorded among the
torn-down groups, and when the slot's generation differs from the handle's;
otherwise it pushes the index onto the free stack and increments the slot's
generation by exactly 1; and `free` of the same handle is idempotent. -/
theorem free_spec (a : Arena) (ad : Address) (group : LocationGroup)
    (loc : Location) (hgrp : a.data ad.tyId = some group)
    (hloc : group.locations.get? ad.index = some loc) :
    (group.type_id_hash ∈ a.freed_groups → a.free ad = a) ∧
    (group.type_id_hash ∉ a.freed_groups → loc.generation ≠ ad.generation →
      a.free ad = a) ∧
    (group.type_id_hash ∉ a.freed_groups → loc.generation = ad.generation →
      a.free ad = { a with
        data := updateFn a.data ad.tyId
          { group with
            free_indexes := ad.index :: group.free_indexes
            locations := group.locations.set ad.index
              { loc with generation := loc.generation + 1 } } }) ∧
    (a.free ad).free ad = a.free ad := by
  refine ⟨fun hmem => free_torn a ad group hgrp hmem,
    fun _ hne => free_stale a ad group loc hgrp hloc hne,
    fun hnm heq => free_acts a ad group loc hgrp hloc hnm heq, ?_⟩
  by_cases hmem : group.type_id_hash ∈ a.freed_groups
  · rw [free_torn a ad group hgrp hmem, free_torn a ad group hgrp hmem]
  · by_cases heq : loc.generation = ad.generation
    · rw [free_acts a ad group loc hgrp hloc hmem heq]
      obtain ⟨hlt, -⟩ := List.get?_eq_some.mp hloc
      refine free_stale _ ad
        { group with
          free_indexes := ad.index :: group.free_indexes
          locations := group.locations.set ad.index
            { loc with generation := loc.generation + 1 } }
        { loc with generation := loc.generation + 1 }
        (by simp [updateFn]) ?_
        (by show loc.generation + 1 ≠ ad.generation; omega)
      simpa using List.get?_set_eq_of_lt _ hlt
    · rw [free_stale a ad group loc hgrp hloc heq,
        free_stale a ad group loc hgrp hloc heq]

/-- Witness for C5 at a concrete state: a fresh arena after one allocation,
freed once and freed again (the second `free` is a no-op). -/
theorem free_spec_witness :
    testW1.arena.data testH1.tyId = some ⟨[⟨0, 5⟩], [], 0⟩ ∧
    (⟨[⟨0, 5⟩], [], 0⟩ : LocationGroup).locations.get? testH1.index =
      some ⟨0, 5⟩ ∧
    (testW1.arena.free testH1).free testH1 = testW1.arena.free testH1 :=
  ⟨rfl, rfl,
    (free_spec testW1.arena testH1 ⟨[⟨0, 5⟩], [], 0⟩ ⟨0, 5⟩ rfl rfl).2.2.2⟩

/-- C10: operations on one entity type leave every other type's group
untouched: `free` of a type-A handle and `allocate` of a type-A value
preserve type B's registry entry (slots, generations, entities and free
stack) exactly, for any B distinct from A. -/
theorem heterogeneous_isolation (a : Arena) (tyB v : Nat) (ad : Address)
    (hne : tyB ≠ ad.tyId) :
    (a.free ad).data tyB = a.data tyB ∧
    (∀ a' gen idx, a.allocate ad.tyId v = some (a', gen, idx) →
      a'.data tyB = a.data tyB) := by
  constructor
  · exact free_data_other a ad tyB hne
  · intro a' gen idx hal
    exact allocate_data_other a ad.tyId v a' gen idx hal tyB hne

/-- Witness for C10 at a concrete state: freeing the type-0 handle does not
change type 1's registry entry. -/
theorem heterogeneous_isolation_witness :
    (1 : Nat) ≠ testH1.tyId ∧
    (testW1.arena.free testH1).data 1 = testW1.arena.data 1 :=
  ⟨by decide, (heterogeneous_isolation testW1.arena 1 5 testH1 (by decide)).1⟩


theorem wfAt_mem (a : Arena) (ty : Nat) (hwf : wfAt a ty = true)
    (g : LocationGroup) (hd : a.data ty = some g) (i : Nat)
    (hi : i ∈ g.free_indexes) : i < g.locations.length := by
  unfold wfAt at hwf
  rw [hd] at hwf
  simp only [List.all_eq_true, decide_eq_true_eq] at hwf
  exact hwf i hi

theorem World.allocate_eq (w : World) (tyId v : Nat) (ar : Arena)
    (gen idx : Nat) (hal : w.arena.allocate tyId v = some (ar, gen, idx)) :
    w.allocate tyId v = some
      ({ arena := ar, counters := updCnt w.counters w.nextRc 1,
         nextRc := w.nextRc + 1 },
       { generation := gen, index := idx, tyId := tyId, rcId := w.nextRc }) := by
  unfold World.allocate
  rw [hal]

/-- C4: with a well-formed free stack, allocation always succeeds, returns a
handle with a fresh counter at 1, and behaves by cases: a non-empty free
stack is popped (LIFO), the slot entity is overwritten keeping its current
generation and the slot count is unchanged; an empty free stack appends a
generation-0 slot at index `length`; a missing group is created containing
exactly the one new slot (the slot sequence grows only when the free-index
stack is empty). -/
theorem allocate_spec (w : World) (tyId v : Nat)
    (hwf : wfAt w.arena tyId = true) :
    ∃ w' ad, w.allocate tyId v = some (w', ad) ∧ ad.tyId = tyId ∧
      w'.counters ad.rcId = 1 ∧
      (∀ group idx rest, w.arena.data tyId = some group →
        group.free_indexes = idx :: rest →
        ad.index = idx ∧
        ∃ loc, group.locations.get? idx = some loc ∧
          ad.generation = loc.generation ∧
          w'.arena.data tyId = some
            { group with
              free_indexes := rest
              locations := group.locations.set idx
                { loc with entity := v } } ∧
          (group.locations.set idx { loc with entity := v }).length =
            group.locations.length) ∧
      (∀ group, w.arena.data tyId = some group → group.free_indexes = [] →
        ad.index = group.locations.length ∧ ad.generation = 0 ∧
        w'.arena.data tyId = some
          { group with locations := group.locations ++ [⟨0, v⟩] }) ∧
      (w.arena.data tyId = none →
        ad.index = 0 ∧ ad.generation = 0 ∧
        w'.arena.data tyId = some ⟨[⟨0, v⟩], [], tyId⟩) := by
  cases hd : w.arena.data tyId with
  | none =>
    have hal := World.allocate_eq w tyId v _ _ _
      (allocate_fresh_eq w.arena tyId v hd)
    refine ⟨_, _, hal, rfl, by simp [updCnt], ?_, ?_, ?_⟩
    · intro group idx rest hd' hf'
      cases hd'
    · intro group hd' hf'
      cases hd'
    · intro _
      simp [updateFn]
  | some group =>
    cases hf : group.free_indexes with
    | cons idx rest =>
      have hlt : idx < group.locations.length :=
        wfAt_mem w.arena tyId hwf group hd idx
          (by rw [hf]; exact List.mem_cons_self idx rest)
      obtain ⟨loc, hl⟩ : ∃ loc, group.locations.get? idx = some loc :=
        ⟨_, List.get?_eq_get hlt⟩
      have hal := World.allocate_eq w tyId v _ _ _
        (allocate_reuse_eq w.arena tyId v group idx rest loc hd hf hl)
      refine ⟨_, _, hal, rfl, by simp [updCnt], ?_, ?_, ?_⟩
      · intro group' idx' rest' hd' hf'
        cases hd'
        rw [hf] at hf'; cases hf'
        exact ⟨rfl, loc, hl, rfl, by simp [updateFn], by simp⟩
      · intro group' hd' hf'
        cases hd'
        rw [hf] at hf'; cases hf'
      · intro hnone
        cases hnone
    | nil =>
      have hal := World.allocate_eq w tyId v _ _ _
        (allocate_append_eq w.arena tyId v group hd hf)
      refine ⟨_, _, hal, rfl, by simp [updCnt], ?_, ?_, ?_⟩
      · intro group' idx' rest' hd' hf'
        cases hd'
        rw [hf] at hf'; cases hf'
      · intro group' hd' hf'
        cases hd'
        exact ⟨rfl, rfl, by simp [updateFn]⟩
      · intro hnone
        cases hnone

/-- C6: freeing a live handle and then allocating the same type reuses the
freed index: the returned generation is exactly one more than the generation
at the moment of freeing (the handle generation), `get` through the new
handle returns the newly stored value, and any handle expecting the pre-free
generation gets `none` from both `get` and `get_mut`. -/
theorem reuse_correctness (a : Arena) (ad : Address) (v r : Nat)
    (group : LocationGroup) (loc : Location)
    (hgrp : a.data ad.tyId = some group)
    (hloc : group.locations.get? ad.index = some loc)
    (hnm : group.type_id_hash ∉ a.freed_groups)
    (hlive : loc.generation = ad.generation) :
    ∃ a2 gen idx, (a.free ad).allocate ad.tyId v = some (a2, gen, idx) ∧
      idx = ad.index ∧ gen = ad.generation + 1 ∧
      a2.get ⟨gen, idx, ad.tyId, r⟩ = some v ∧
      a2.get ad = none ∧ a2.get_mut ad = none := by
  obtain ⟨hlt, -⟩ := List.get?_eq_some.mp hloc
  have hfree := free_acts a ad group loc hgrp hloc hnm hlive
  have hd1 : (a.free ad).data ad.tyId = some
      ⟨group.locations.set ad.index ⟨loc.generation + 1, loc.entity⟩,
        ad.index :: group.free_indexes, group.type_id_hash⟩ := by
    rw [hfree]; simp [updateFn]
  have hl1 : (group.locations.set ad.index
      ⟨loc.generation + 1, loc.entity⟩).get? ad.index =
      some ⟨loc.generation + 1, loc.entity⟩ :=
    List.get?_set_eq_of_lt _ hlt
  have hal := allocate_reuse_eq (a.free ad) ad.tyId v
    ⟨group.locations.set ad.index ⟨loc.generation + 1, loc.entity⟩,
      ad.index :: group.free_indexes, group.type_id_hash⟩
    ad.index group.free_indexes ⟨loc.generation + 1, loc.entity⟩
    hd1 rfl hl1
  refine ⟨_, _, _, hal, rfl, by simp [hlive], ?_, ?_, ?_⟩
  · simp [Arena.get, updateFn, List.length_set, hlt, hlive]
  · simp [Arena.get, updateFn, List.length_set, hlt, hlive]
  · simp [Arena.get_mut, updateFn, List.length_set, hlt, hlive]


/-- Witness for C4: allocation into a fresh arena (no group for type 0 yet)
succeeds and creates the group with one generation-0 slot. -/
theorem allocate_spec_witness :
    wfAt testWorld.arena 0 = true ∧
    ∃ w' ad, testWorld.allocate 0 5 = some (w', ad) ∧ ad.tyId = 0 ∧
      w'.counters ad.rcId = 1 ∧
      (∀ group idx rest, testWorld.arena.data 0 = some group →
        group.free_indexes = idx :: rest →
        ad.index = idx ∧
        ∃ loc, group.locations.get? idx = some loc ∧
          ad.generation = loc.generation ∧
          w'.arena.data 0 = some
            { group with
              free_indexes := rest
              locations := group.locations.set idx
                { loc with entity := 5 } } ∧
          (group.locations.set idx { loc with entity := 5 }).length =
            group.locations.length) ∧
      (∀ group, testWorld.arena.data 0 = some group →
        group.free_indexes = [] →
        ad.index = group.locations.length ∧ ad.generation = 0 ∧
        w'.arena.data 0 = some
          { group with locations := group.locations ++ [⟨0, 5⟩] }) ∧
      (testWorld.arena.data 0 = none →
        ad.index = 0 ∧ ad.generation = 0 ∧
        w'.arena.data 0 = some ⟨[⟨0, 5⟩], [], 0⟩) :=
  ⟨rfl, allocate_spec testWorld 0 5 rfl⟩

/-- Witness for C6: free the only handle of a one-slot arena, allocate
again; the new handle has generation 1 at index 0 and sees the new value. -/
theorem reuse_correctness_witness :
    testW1.arena.data testH1.tyId = some ⟨[⟨0, 5⟩], [], 0⟩ ∧
    (⟨[⟨0, 5⟩], [], 0⟩ : LocationGroup).locations.get? testH1.index =
      some ⟨0, 5⟩ ∧
    (⟨[⟨0, 5⟩], [], 0⟩ : LocationGroup).type_id_hash ∉
      testW1.arena.freed_groups ∧
    (Location.mk 0 5).generation = testH1.generation ∧
    ∃ a2 gen idx,
      (testW1.arena.free testH1).allocate testH1.tyId 7 =
        some (a2, gen, idx) ∧
      idx = testH1.index ∧ gen = testH1.generation + 1 ∧
      a2.get ⟨gen, idx, testH1.tyId, 9⟩ = some 7 ∧
      a2.get testH1 = none ∧ a2.get_mut testH1 = none :=
  ⟨rfl, rfl, by decide, rfl,
    reuse_correctness testW1.arena testH1 7 9 ⟨[⟨0, 5⟩], [], 0⟩ ⟨0, 5⟩
      rfl rfl (by decide) rfl⟩


theorem slotGen_congr (a a' : Arena) (ty i : Nat)
    (h : a'.data ty = a.data ty) : slotGen a' ty i = slotGen a ty i := by
  unfold slotGen
  rw [h]

theorem slotGen_mk (a : Arena) (ty i : Nat) (g : LocationGroup)
    (hd : a.data ty = some g) :
    slotGen a ty i = (g.locations.get? i).map Location.generation := by
  unfold slotGen
  rw [hd]

theorem free_slotGen_mono (a : Arena) (ad : Address) (ty i g : Nat)
    (hg : slotGen a ty i = some g) :
    ∃ g', slotGen (a.free ad) ty i = some g' ∧ g ≤ g' := by
  by_cases hty : ty = ad.tyId
  · subst hty
    obtain ⟨group, loc0, hd, hl0, hg0⟩ :=
      (slotGen_eq_some a ad.tyId i g).mp hg
    by_cases hmem : group.type_id_hash ∈ a.freed_groups
    · rw [free_torn a ad group hd hmem]
      exact ⟨g, hg, le_refl g⟩
    · cases hl : group.locations.get? ad.index with
      | none =>
        rw [free_noloc a ad group hd hl]
        exact ⟨g, hg, le_refl g⟩
      | some loc =>
        by_cases heq : loc.generation = ad.generation
        · by_cases hi : i = ad.index
          · subst hi
            rw [hl0] at hl
            cases hl
            obtain ⟨hlt, -⟩ := List.get?_eq_some.mp hl0
            have hdata : (a.free ad).data ad.tyId = some
                ⟨group.locations.set ad.index
                  ⟨loc0.generation + 1, loc0.entity⟩,
                  ad.index :: group.free_indexes, group.type_id_hash⟩ := by
              rw [free_acts a ad group loc0 hd hl0 hmem heq]
              simp [updateFn]
            rw [slotGen_mk _ _ _ _ hdata, List.get?_set_eq_of_lt _ hlt]
            exact ⟨loc0.generation + 1, by simp, by omega⟩
          · have hdata : (a.free ad).data ad.tyId = some
                ⟨group.locations.set ad.index
                  ⟨loc.generation + 1, loc.entity⟩,
                  ad.index :: group.free_indexes, group.type_id_hash⟩ := by
              rw [free_acts a ad group loc hd hl hmem heq]
              simp [updateFn]
            rw [slotGen_mk _ _ _ _ hdata,
              List.get?_set_ne _ _ (fun h => hi h.symm), hl0]
            exact ⟨g, by simp [hg0], le_refl g⟩
        · rw [free_stale a ad group loc hd hl heq]
          exact ⟨g, hg, le_refl g⟩
  · rw [slotGen_congr _ _ _ i (free_data_other a ad ty hty)]
    exact ⟨g, hg, le_refl g⟩

theorem allocate_slotGen_pres (a : Arena) (tyId v : Nat) (a' : Arena)
    (gen idx : Nat) (hal : a.allocate tyId v = some (a', gen, idx))
    (ty i g : Nat) (hg : slotGen a ty i = some g) :
    slotGen a' ty i = some g := by
  by_cases hty : ty = tyId
  · subst hty
    obtain ⟨group0, loc0, hd0, hl0, hg0⟩ :=
      (slotGen_eq_some a ty i g).mp hg
    rcases allocate_cases a ty v a' gen idx hal with
      ⟨group, loc, rest, hd, hf, hl, hgen, ha⟩ | ⟨group, hd, hf, hi, hgen, ha⟩ |
      ⟨hd, hi, hgen, ha⟩
    · rw [hd0] at hd
      cases hd
      by_cases hi : i = idx
      · subst hi
        rw [hl0] at hl
        cases hl
        obtain ⟨hlt, -⟩ := List.get?_eq_some.mp hl0
        have hdata : a'.data ty = some
            ⟨group0.locations.set i ⟨loc0.generation, v⟩, rest,
              group0.type_id_hash⟩ := by
          rw [ha]
          simp [updateFn]
        rw [slotGen_mk _ _ _ _ hdata, List.get?_set_eq_of_lt _ hlt]
        simp [hg0]
      · have hdata : a'.data ty = some
            ⟨group0.locations.set idx ⟨loc.generation, v⟩, rest,
              group0.type_id_hash⟩ := by
          rw [ha]
          simp [updateFn]
        rw [slotGen_mk _ _ _ _ hdata,
          List.get?_set_ne _ _ (fun h => hi h.symm), hl0]
        simp [hg0]
    · rw [hd0] at hd
      cases hd
      obtain ⟨hlt, -⟩ := List.get?_eq_some.mp hl0
      have hdata : a'.data ty = some
          ⟨group0.locations ++ [⟨0, v⟩], group0.free_indexes,
            group0.type_id_hash⟩ := by
        rw [ha]
        simp [updateFn]
      rw [slotGen_mk _ _ _ _ hdata, List.get?_append hlt, hl0]
      simp [hg0]
    · rw [hd0] at hd
      cases hd
  · rw [slotGen_congr _ _ _ i
      (allocate_data_other a tyId v a' gen idx hal ty hty)]
    exact hg

theorem copy_arena (w : World) (ad : Address) :
    (Address.copy w ad).1.arena = w.arena := rfl

theorem clone_arena (w : World) (ad : Address) :
    (Address.clone w ad).1.arena = w.arena := rfl

theorem remove_arena (w : World) (ad : Address) :
    (Address.remove w ad).arena = w.arena.free ad := rfl

theorem drop_arena (w : World) (ad : Address) :
    (Address.drop w ad).arena = w.arena ∨
    (Address.drop w ad).arena = w.arena.free ad := by
  unfold Address.drop
  by_cases h : w.counters ad.rcId - 1 = 0
  · right; simp [h]
  · left; simp [h]

theorem step_alloc_none (s : TState) (ty v : Nat)
    (h : s.world.allocate ty v = none) : s.step (Op.alloc ty v) = s := by
  simp only [TState.step, h]

theorem step_alloc_some (s : TState) (ty v : Nat) (w' : World) (ad : Address)
    (h : s.world.allocate ty v = some (w', ad)) :
    s.step (Op.alloc ty v) =
      { world := w',
        issued := updateIss s.issued ty ad.index ad.generation } := by
  simp only [TState.step, h]

theorem step_copy (s : TState) (ad : Address) :
    s.step (Op.copyOp ad) = { s with world := (Address.copy s.world ad).1 } :=
  rfl

theorem step_clone (s : TState) (ad : Address) :
    s.step (Op.cloneOp ad) = s := rfl

theorem step_drop (s : TState) (ad : Address) :
    s.step (Op.dropOp ad) = { s with world := Address.drop s.world ad } := rfl

theorem step_remove (s : TState) (ad : Address) :
    s.step (Op.removeOp ad) =
      { s with world := Address.remove s.world ad } := rfl

theorem step_slotGen_mono (s : TState) (op : Op) (ty i g : Nat)
    (hg : slotGen s.world.arena ty i = some g) :
    ∃ g', slotGen (s.step op).world.arena ty i = some g' ∧ g ≤ g' := by
  cases op with
  | alloc ty0 v =>
    cases hal : s.world.allocate ty0 v with
    | none =>
      rw [step_alloc_none s ty0 v hal]
      exact ⟨g, hg, le_refl g⟩
    | some p =>
      obtain ⟨w', ad⟩ := p
      rw [step_alloc_some s ty0 v w' ad hal]
      unfold World.allocate at hal
      cases hala : s.world.arena.allocate ty0 v with
      | none => rw [hala] at hal; cases hal
      | some q =>
        obtain ⟨ar, gen, idx⟩ := q
        rw [hala] at hal
        cases hal
        exact ⟨g, allocate_slotGen_pres _ _ _ _ _ _ hala ty i g hg, le_refl g⟩
  | copyOp ad =>
    rw [step_copy s ad]
    exact ⟨g, hg, le_refl g⟩
  | cloneOp ad =>
    rw [step_clone s ad]
    exact ⟨g, hg, le_refl g⟩
  | dropOp ad =>
    rw [step_drop s ad]
    show ∃ g', slotGen (Address.drop s.world ad).arena ty i = some g' ∧ g ≤ g'
    rcases drop_arena s.world ad with h | h
    · rw [h]
      exact ⟨g, hg, le_refl g⟩
    · obtain ⟨g', hg', hle⟩ := free_slotGen_mono s.world.arena ad ty i g hg
      rw [h]
      exact ⟨g', hg', hle⟩
  | removeOp ad =>
    rw [step_remove s ad]
    show ∃ g', slotGen (Address.remove s.world ad).arena ty i = some g' ∧ g ≤ g'
    rw [remove_arena]
    obtain ⟨g', hg', hle⟩ := free_slotGen_mono s.world.arena ad ty i g hg
    exact ⟨g', hg', hle⟩

theorem run_slotGen_mono (tr : List Op) (s : TState) (ty i g : Nat)
    (hg : slotGen s.world.arena ty i = some g) :
    ∃ g', slotGen (TState.run s tr).world.arena ty i = some g' ∧ g ≤ g' := by
  induction tr generalizing s g with
  | nil => exact ⟨g, hg, le_refl g⟩
  | cons op tr ih =>
    obtain ⟨g1, hg1, hle1⟩ := step_slotGen_mono s op ty i g hg
    obtain ⟨g2, hg2, hle2⟩ := ih (s.step op) g1 hg1
    exact ⟨g2, hg2, le_trans hle1 hle2⟩

/-- C2: once the slot's generation has been incremented past a handle's
expected generation, that handle's `get` and `get_mut` return `none` in
every subsequent state, no matter what allocations, copies, clones, drops or
removes follow (generations never decrease and slots are never removed). -/
theorem stale_forever (w : World) (ad : Address) (g : Nat)
    (hgen : slotGen w.arena ad.tyId ad.index = some g)
    (hlt : ad.generation < g) (tr : List Op) :
    Address.get (runFrom w tr) ad = none ∧
    Address.get_mut (runFrom w tr) ad = none := by
  obtain ⟨g', hg', hle⟩ := run_slotGen_mono tr
    { world := w, issued := fun _ _ => [] } ad.tyId ad.index g hgen
  have hne : g' ≠ ad.generation := by omega
  unfold runFrom Address.get Address.get_mut
  rw [get_mut_eq_get]
  exact ⟨get_none_of_gen_ne _ ad g' hg' hne,
    get_none_of_gen_ne _ ad g' hg' hne⟩


/-- Witness for C2: after dropping the only handle the slot is at
generation 1; the stale generation-0 handle stays `none` across a further
allocation that reuses the slot. -/
theorem stale_forever_witness :
    slotGen (Address.drop testW1 testH1).arena testH1.tyId testH1.index =
      some 1 ∧ testH1.generation < 1 ∧
    Address.get (runFrom (Address.drop testW1 testH1) [Op.alloc 0 7])
      testH1 = none :=
  ⟨by decide, by decide,
    (stale_forever (Address.drop testW1 testH1) testH1 1 (by decide)
      (by decide) [Op.alloc 0 7]).1⟩


theorem slotVal_mk (a : Arena) (ty i : Nat) (g : LocationGroup)
    (hd : a.data ty = some g) :
    slotVal a ty i = (g.locations.get? i).map Location.entity := by
  unfold slotVal
  rw [hd]

theorem allocate_slot_self (a : Arena) (tyId v : Nat) (a' : Arena)
    (gen idx : Nat) (hal : a.allocate tyId v = some (a', gen, idx)) :
    slotGen a' tyId idx = some gen ∧ slotVal a' tyId idx = some v := by
  rcases allocate_cases a tyId v a' gen idx hal with
    ⟨group, loc, rest, hd, hf, hl, hgen, ha⟩ | ⟨group, hd, hf, hi, hgen, ha⟩ |
    ⟨hd, hi, hgen, ha⟩
  · obtain ⟨hlt, -⟩ := List.get?_eq_some.mp hl
    have hdata : a'.data tyId = some
        ⟨group.locations.set idx ⟨loc.generation, v⟩, rest,
          group.type_id_hash⟩ := by
      rw [ha]
      simp [updateFn]
    rw [slotGen_mk _ _ _ _ hdata, slotVal_mk _ _ _ _ hdata,
      List.get?_set_eq_of_lt _ hlt]
    simp [hgen]
  · have hdata : a'.data tyId = some
        ⟨group.locations ++ [⟨0, v⟩], group.free_indexes,
          group.type_id_hash⟩ := by
      rw [ha]
      simp [updateFn]
    rw [slotGen_mk _ _ _ _ hdata, slotVal_mk _ _ _ _ hdata, hi,
      List.get?_concat_length]
    simp [hgen]
  · have hdata : a'.data tyId = some ⟨[⟨0, v⟩], [], tyId⟩ := by
      rw [ha]
      simp [updateFn]
    rw [slotGen_mk _ _ _ _ hdata, slotVal_mk _ _ _ _ hdata, hi]
    simp [hgen]

theorem World.allocate_post (w : World) (ty v : Nat) (w1 : World)
    (h : Address) (hal : w.allocate ty v = some (w1, h)) :
    h.tyId = ty ∧ h.rcId = w.nextRc ∧ w1.counters h.rcId = 1 ∧
    slotGen w1.arena h.tyId h.index = some h.generation ∧
    slotVal w1.arena h.tyId h.index = some v ∧
    w1.arena.freed_groups = w.arena.freed_groups := by
  unfold World.allocate at hal
  cases hala : w.arena.allocate ty v with
  | none => rw [hala] at hal; cases hal
  | some q =>
    obtain ⟨ar, gen, idx⟩ := q
    rw [hala] at hal
    cases hal
    obtain ⟨hsg, hsv⟩ := allocate_slot_self w.arena ty v ar gen idx hala
    exact ⟨rfl, rfl, by simp [updCnt], hsg, hsv,
      allocate_freed_groups w.arena ty v ar gen idx hala⟩

theorem groupLive_spec (a : Arena) (ty : Nat)
    (hl : groupLive a ty = true) :
    ∃ g, a.data ty = some g ∧ g.type_id_hash ∉ a.freed_groups := by
  unfold groupLive at hl
  cases hd : a.data ty with
  | none => rw [hd] at hl; cases hl
  | some g =>
    rw [hd] at hl
    simp only [Bool.not_eq_true'] at hl
    refine ⟨g, rfl, ?_⟩
    intro hmem
    have helem := List.elem_eq_true_of_mem hmem
    rw [show a.freed_groups.contains g.type_id_hash =
      List.elem g.type_id_hash a.freed_groups from rfl, helem] at hl
    cases hl

theorem free_act_slotGen (a : Arena) (ad : Address)
    (hlive : groupLive a ad.tyId = true)
    (hgen : slotGen a ad.tyId ad.index = some ad.generation) :
    slotGen (a.free ad) ad.tyId ad.index = some (ad.generation + 1) ∧
    (a.free ad).freed_groups = a.freed_groups := by
  obtain ⟨group, hd, hnm⟩ := groupLive_spec a ad.tyId hlive
  obtain ⟨group', loc, hd', hl, hlg⟩ :=
    (slotGen_eq_some a ad.tyId ad.index ad.generation).mp hgen
  rw [hd] at hd'
  cases hd'
  obtain ⟨hlt, -⟩ := List.get?_eq_some.mp hl
  have hdata : (a.free ad).data ad.tyId = some
      ⟨group.locations.set ad.index ⟨loc.generation + 1, loc.entity⟩,
        ad.index :: group.free_indexes, group.type_id_hash⟩ := by
    rw [free_acts a ad group loc hd hl hnm hlg]
    simp [updateFn]
  constructor
  · rw [slotGen_mk _ _ _ _ hdata, List.get?_set_eq_of_lt _ hlt]
    simp [hlg]
  · exact free_freed_groups a ad

theorem free_stale_slotGen (a : Arena) (ad : Address) (g : Nat)
    (hg : slotGen a ad.tyId ad.index = some g) (hne : g ≠ ad.generation) :
    a.free ad = a := by
  obtain ⟨group, loc, hd, hl, hlg⟩ :=
    (slotGen_eq_some a ad.tyId ad.index g).mp hg
  exact free_stale a ad group loc hd hl (by omega)

theorem copy_counters (u : World) (ad : Address) :
    (Address.copy u ad).1.counters ad.rcId = u.counters ad.rcId + 1 := by
  simp [Address.copy, updCnt]

theorem copy_addr (u : World) (ad : Address) : (Address.copy u ad).2 = ad :=
  rfl

theorem copyN_arena (w : World) (ad : Address) (n : Nat) :
    (copyN w ad n).arena = w.arena := by
  induction n generalizing w with
  | zero => rfl
  | succ n ih =>
    rw [copyN, ih]
    rfl

theorem copyN_counters (w : World) (ad : Address) (n : Nat) :
    (copyN w ad n).counters ad.rcId = w.counters ad.rcId + n := by
  induction n generalizing w with
  | zero => simp [copyN]
  | succ n ih =>
    rw [copyN, ih]
    rw [copy_counters]
    push_cast
    ring

theorem drop_eq_zero (w : World) (ad : Address)
    (h : w.counters ad.rcId - 1 = 0) :
    Address.drop w ad = World.mk (w.arena.free ad)
      (updCnt w.counters ad.rcId (w.counters ad.rcId - 1)) w.nextRc := by
  simp only [Address.drop, h, if_true, ite_true]

theorem drop_eq_pos (w : World) (ad : Address)
    (h : ¬w.counters ad.rcId - 1 = 0) :
    Address.drop w ad = World.mk w.arena
      (updCnt w.counters ad.rcId (w.counters ad.rcId - 1)) w.nextRc := by
  simp only [Address.drop, h, if_false, ite_false]

theorem dropN_succ_out (w : World) (ad : Address) (k : Nat) :
    dropN w ad (k + 1) = Address.drop (dropN w ad k) ad := by
  induction k generalizing w with
  | zero => rfl
  | succ k ih =>
    rw [dropN, ih, dropN]

theorem dropN_stable (w : World) (ad : Address) (k : Nat) (c : Int)
    (hc : w.counters ad.rcId = c) (hk : (k : Int) < c ∨ c < 0) :
    (dropN w ad k).arena = w.arena ∧
    (dropN w ad k).counters ad.rcId = c - k := by
  induction k generalizing w c with
  | zero =>
    refine ⟨rfl, ?_⟩
    show w.counters ad.rcId = c - ((0 : Nat) : Int)
    rw [hc]
    push_cast
    ring
  | succ k ih =>
    rw [dropN]
    have hne : ¬w.counters ad.rcId - 1 = 0 := by
      rw [hc]
      rcases hk with hk | hk
      · push_cast at hk
        omega
      · omega
    rw [drop_eq_pos w ad hne]
    have hk' : ((k : Int) < c - 1 ∨ c - 1 < 0) := by
      rcases hk with hk | hk
      · left
        push_cast at hk
        omega
      · right
        omega
    obtain ⟨h1, h2⟩ := ih (World.mk w.arena
      (updCnt w.counters ad.rcId (w.counters ad.rcId - 1)) w.nextRc)
      (c - 1) (by simp [updCnt, hc]) hk'
    refine ⟨h1, ?_⟩
    rw [h2]
    push_cast
    ring

theorem remove_counters (w : World) (ad : Address) :
    (Address.remove w ad).counters ad.rcId = -1 := by
  simp [Address.remove, updCnt]

theorem remove_arena_counters (w : World) (ad : Address) :
    (Address.remove w ad).arena = w.arena.free ad ∧
    (Address.remove w ad).counters ad.rcId = -1 :=
  ⟨rfl, remove_counters w ad⟩


/-- C7: a handle copied `n` times then destroyed `n + 1` times frees the
slot exactly once: each `copy` returns the very same address value (so every
destruction order is the same sequence of identical drops), no drop before
the last changes the generation, and the last drop increments it by exactly
1, leaving the shared count at 0.  The bound `n + 1 ≤ 32767` keeps every
shared count reached (they range over `0..n+1`) inside the `i16` range of
the source's counter, where the model's `Int` arithmetic coincides exactly
with the source and debug and release builds agree; past it the source
itself overflows. -/
theorem refcount_symmetry (w : World) (tyId v n : Nat) (w1 : World)
    (h : Address) (halloc : w.allocate tyId v = some (w1, h))
    (hlive : groupLive w1.arena h.tyId = true)
    (_hbound : n + 1 ≤ 32767) :
    (copyN w1 h n).counters h.rcId = 1 + n ∧
    (∀ u : World, (Address.copy u h).2 = h) ∧
    (∀ k, k ≤ n →
      slotGen (dropN (copyN w1 h n) h k).arena h.tyId h.index =
        some h.generation) ∧
    slotGen (dropN (copyN w1 h n) h (n + 1)).arena h.tyId h.index =
      some (h.generation + 1) ∧
    (dropN (copyN w1 h n) h (n + 1)).counters h.rcId = 0 := by
  obtain ⟨-, -, hc1, hsg, -, -⟩ := World.allocate_post w tyId v w1 h halloc
  have hcN : (copyN w1 h n).counters h.rcId = 1 + n := by
    rw [copyN_counters, hc1]
  have haN : (copyN w1 h n).arena = w1.arena := copyN_arena w1 h n
  obtain ⟨han, hcn⟩ := dropN_stable (copyN w1 h n) h n (1 + n) hcN
    (Or.inl (by omega))
  have hz : (dropN (copyN w1 h n) h n).counters h.rcId - 1 = 0 := by
    rw [hcn]
    ring
  refine ⟨hcN, fun u => rfl, ?_, ?_, ?_⟩
  · intro k hk
    obtain ⟨ha, -⟩ := dropN_stable (copyN w1 h n) h k (1 + n) hcN
      (Or.inl (by omega))
    rw [ha, haN]
    exact hsg
  · rw [dropN_succ_out, drop_eq_zero _ h hz]
    show slotGen ((dropN (copyN w1 h n) h n).arena.free h) h.tyId h.index = _
    rw [han, haN]
    exact (free_act_slotGen w1.arena h hlive hsg).1
  · rw [dropN_succ_out, drop_eq_zero _ h hz]
    show updCnt (dropN (copyN w1 h n) h n).counters h.rcId
      ((dropN (copyN w1 h n) h n).counters h.rcId - 1) h.rcId = 0
    simp only [updCnt, if_pos rfl]
    exact hz

/-- C8: `remove` on one of `m + 1` copies sets the shared counter to the
sentinel `-1` (distinct from 0) and frees immediately: the generation rises
by exactly 1, every copy's `get`/`get_mut` returns `none` from then on, and
later drops (or another `remove`) of the sibling copies never free again —
the generation stays at exactly `h.generation + 1`.  The bounds
`m + 1 ≤ 32767` and `j ≤ 32767` keep every shared count reached (they range
over `-1-j..m+1`) inside the `i16` range of the source's counter, where the
model's `Int` arithmetic coincides exactly with the source and debug and
release builds agree; past it the source itself overflows. -/
theorem force_free_supersedes (w : World) (tyId v m : Nat) (w1 : World)
    (h : Address) (halloc : w.allocate tyId v = some (w1, h))
    (hlive : groupLive w1.arena h.tyId = true)
    (_hbound : m + 1 ≤ 32767) :
    (Address.remove (copyN w1 h m) h).counters h.rcId = -1 ∧
    ((-1 : Int) ≠ 0) ∧
    slotGen (Address.remove (copyN w1 h m) h).arena h.tyId h.index =
      some (h.generation + 1) ∧
    ∀ j : Nat, j ≤ 32767 →
      slotGen (dropN (Address.remove (copyN w1 h m) h) h j).arena h.tyId
        h.index = some (h.generation + 1) ∧
      Address.get (dropN (Address.remove (copyN w1 h m) h) h j) h = none ∧
      Address.get_mut (dropN (Address.remove (copyN w1 h m) h) h j) h =
        none ∧
      (dropN (Address.remove (copyN w1 h m) h) h j).counters h.rcId =
        -1 - (j : Int) ∧
      slotGen (Address.remove
          (dropN (Address.remove (copyN w1 h m) h) h j) h).arena h.tyId
        h.index = some (h.generation + 1) := by
  obtain ⟨-, -, hc1, hsg, -, -⟩ := World.allocate_post w tyId v w1 h halloc
  have haM := copyN_arena w1 h m
  have hrc : (Address.remove (copyN w1 h m) h).counters h.rcId = -1 :=
    remove_counters _ h
  have hra : (Address.remove (copyN w1 h m) h).arena = w1.arena.free h := by
    rw [remove_arena, haM]
  have hsg1 : slotGen (Address.remove (copyN w1 h m) h).arena h.tyId
      h.index = some (h.generation + 1) := by
    rw [hra]
    exact (free_act_slotGen w1.arena h hlive hsg).1
  refine ⟨hrc, by decide, hsg1, ?_⟩
  intro j _hj
  obtain ⟨haj, hcj⟩ := dropN_stable (Address.remove (copyN w1 h m) h) h j
    (-1) hrc (Or.inr (by omega))
  have hsgj : slotGen (dropN (Address.remove (copyN w1 h m) h) h j).arena
      h.tyId h.index = some (h.generation + 1) := by
    rw [haj]
    exact hsg1
  refine ⟨hsgj, ?_, ?_, by rw [hcj], ?_⟩
  · show (dropN (Address.remove (copyN w1 h m) h) h j).arena.get h = none
    exact get_none_of_gen_ne _ h (h.generation + 1) hsgj (by omega)
  · show (dropN (Address.remove (copyN w1 h m) h) h j).arena.get_mut h =
      none
    rw [get_mut_eq_get]
    exact get_none_of_gen_ne _ h (h.generation + 1) hsgj (by omega)
  · rw [remove_arena,
      free_stale_slotGen _ h (h.generation + 1) hsgj (by omega)]
    exact hsgj

/-- C9: the derived `Clone` of an address shares the `Rc<RefCell<i16>>`
cell without incrementing the `i16` inside: the clone is field-for-field the
same handle and the counter store is untouched, so with an initial count of
1 destroying either of the two copies brings the count to 0 and frees the
slot while the other copy is still live (its `get` then returns `none`);
only the explicit `copy` operation increments the shared count. -/
theorem clone_shares_counter (w : World) (tyId v : Nat) (w1 : World)
    (h : Address) (halloc : w.allocate tyId v = some (w1, h))
    (hlive : groupLive w1.arena h.tyId = true) :
    (Address.clone w1 h).2 = h ∧
    (Address.clone w1 h).1 = w1 ∧
    w1.counters h.rcId = 1 ∧
    (Address.drop (Address.clone w1 h).1 h).counters h.rcId = 0 ∧
    slotGen (Address.drop (Address.clone w1 h).1 h).arena h.tyId h.index =
      some (h.generation + 1) ∧
    Address.get (Address.drop (Address.clone w1 h).1 h) h = none ∧
    ∀ (u : World) (ad : Address),
      (Address.copy u ad).1.counters ad.rcId = u.counters ad.rcId + 1 := by
  obtain ⟨-, -, hc1, hsg, -, -⟩ := World.allocate_post w tyId v w1 h halloc
  have hz : (Address.clone w1 h).1.counters h.rcId - 1 = 0 := by
    show w1.counters h.rcId - 1 = 0
    rw [hc1]
    ring
  have hdrop := drop_eq_zero (Address.clone w1 h).1 h hz
  refine ⟨rfl, rfl, hc1, ?_, ?_, ?_, copy_counters⟩
  · rw [hdrop]
    show updCnt (Address.clone w1 h).1.counters h.rcId
      ((Address.clone w1 h).1.counters h.rcId - 1) h.rcId = 0
    simp only [updCnt, if_pos rfl]
    exact hz
  · rw [hdrop]
    show slotGen (w1.arena.free h) h.tyId h.index = _
    exact (free_act_slotGen w1.arena h hlive hsg).1
  · rw [hdrop]
    show (w1.arena.free h).get h = none
    exact get_none_of_gen_ne _ h (h.generation + 1)
      (free_act_slotGen w1.arena h hlive hsg).1 (by omega)


/-- Witness for C7: one allocation, two copies, three drops; the slot is
freed exactly at the last drop and the counter ends at 0. -/
theorem refcount_symmetry_witness :
    testWorld.allocate 0 5 = some (testW1, testH1) ∧
    groupLive testW1.arena testH1.tyId = true ∧
    2 + 1 ≤ 32767 ∧
    slotGen (dropN (copyN testW1 testH1 2) testH1 3).arena testH1.tyId
      testH1.index = some (testH1.generation + 1) ∧
    (dropN (copyN testW1 testH1 2) testH1 3).counters testH1.rcId = 0 :=
  ⟨rfl, rfl, by decide,
    (refcount_symmetry testWorld 0 5 2 testW1 testH1 rfl rfl
      (by decide)).2.2.2.1,
    (refcount_symmetry testWorld 0 5 2 testW1 testH1 rfl rfl
      (by decide)).2.2.2.2⟩

/-- Witness for C8: one allocation, one copy, `remove`, then one more drop;
the sibling's `get` stays `none` and the generation stays at 1. -/
theorem force_free_supersedes_witness :
    testWorld.allocate 0 5 = some (testW1, testH1) ∧
    groupLive testW1.arena testH1.tyId = true ∧
    1 + 1 ≤ 32767 ∧ (1 : Nat) ≤ 32767 ∧
    slotGen (Address.remove (copyN testW1 testH1 1) testH1).arena
      testH1.tyId testH1.index = some (testH1.generation + 1) ∧
    Address.get (dropN (Address.remove (copyN testW1 testH1 1) testH1)
      testH1 1) testH1 = none :=
  ⟨rfl, rfl, by decide, by decide,
    (force_free_supersedes testWorld 0 5 1 testW1 testH1 rfl rfl
      (by decide)).2.2.1,
    ((force_free_supersedes testWorld 0 5 1 testW1 testH1 rfl rfl
      (by decide)).2.2.2 1 (by decide)).2.1⟩

/-- Witness for C9: clone the only handle, drop one copy; the survivor's
`get` returns `none`. -/
theorem clone_shares_counter_witness :
    testWorld.allocate 0 5 = some (testW1, testH1) ∧
    groupLive testW1.arena testH1.tyId = true ∧
    Address.get (Address.drop (Address.clone testW1 testH1).1 testH1)
      testH1 = none :=
  ⟨rfl, rfl,
    (clone_shares_counter testWorld 0 5 testW1 testH1 rfl
      rfl).2.2.2.2.2.1⟩

end ArenaAlloc

namespace ArenaAlloc

theorem GroupInv_congr (g : LocationGroup) (f f' : Nat → List Nat)
    (h : ∀ i, f i = f' i) (hg : GroupInv g f) : GroupInv g f' := by
  obtain ⟨h1, h2, h3, h4⟩ := hg
  refine ⟨h1, h2, ?_, ?_⟩
  · intro i gen hgen
    exact h3 i gen (by rw [h]; exact hgen)
  · intro i
    rw [← h]
    exact h4 i

theorem updateIss_self (iss : Nat → Nat → List Nat) (ty i gen : Nat) :
    updateIss iss ty i gen ty i = gen :: iss ty i := by
  simp [updateIss]

theorem updateIss_ne (iss : Nat → Nat → List Nat) (ty i gen ty' j : Nat)
    (h : ¬(ty' = ty ∧ j = i)) :
    updateIss iss ty i gen ty' j = iss ty' j := by
  simp only [updateIss, if_neg h]

theorem free_pres_inv (a : Arena) (ad : Address)
    (iss : Nat → Nat → List Nat) (hinv : ArenaInv a iss)
    (hiss : ad.generation ∈ iss ad.tyId ad.index) :
    ArenaInv (a.free ad) iss := by
  obtain ⟨hnone, hsome⟩ := hinv
  cases hd : a.data ad.tyId with
  | none =>
    rw [free_nogroup a ad hd]
    exact ⟨hnone, hsome⟩
  | some group =>
    by_cases hmem : group.type_id_hash ∈ a.freed_groups
    · rw [free_torn a ad group hd hmem]
      exact ⟨hnone, hsome⟩
    · cases hl : group.locations.get? ad.index with
      | none =>
        rw [free_noloc a ad group hd hl]
        exact ⟨hnone, hsome⟩
      | some loc =>
        by_cases heq : loc.generation = ad.generation
        case neg =>
          rw [free_stale a ad group loc hd hl heq]
          exact ⟨hnone, hsome⟩
        case pos =>
          obtain ⟨hnd, hbound, hgens, hpw⟩ := hsome ad.tyId group hd
          obtain ⟨loc', hl', hle', hstrict'⟩ :=
            hgens ad.index ad.generation hiss
          rw [hl] at hl'
          cases hl'
          have hnin : ad.index ∉ group.free_indexes := by
            intro hin
            have := hstrict' hin
            omega
          obtain ⟨hlt, -⟩ := List.get?_eq_some.mp hl
          rw [free_acts a ad group loc hd hl hmem heq]
          constructor
          · intro ty hty
            by_cases h : ty = ad.tyId
            · subst h
              simp [updateFn] at hty
            · simp only [updateFn] at hty
              rw [if_neg h] at hty
              exact hnone ty hty
          · intro ty g hty
            by_cases h : ty = ad.tyId
            · subst h
              simp only [updateFn, eq_self_iff_true, if_true, ite_true,
                Option.some.injEq] at hty
              subst hty
              refine ⟨List.nodup_cons.mpr ⟨hnin, hnd⟩, ?_, ?_, hpw⟩
              · intro i hi
                rw [List.length_set]
                rcases List.mem_cons.mp hi with h1 | h1
                · subst h1
                  exact hlt
                · exact hbound i h1
              · intro i gen hgen
                obtain ⟨loci, hli, hlei, hstricti⟩ := hgens i gen hgen
                by_cases hi : i = ad.index
                · subst hi
                  rw [hli] at hl
                  cases hl
                  refine ⟨⟨loc.generation + 1, loc.entity⟩,
                    List.get?_set_eq_of_lt _ hlt,
                    show gen ≤ loc.generation + 1 by omega,
                    fun _ => show gen < loc.generation + 1 by omega⟩
                · refine ⟨loci, ?_, hlei, ?_⟩
                  · rw [List.get?_set_ne _ _ (fun hh => hi hh.symm)]
                    exact hli
                  · intro hin
                    rcases List.mem_cons.mp hin with h1 | h1
                    · exact absurd h1 hi
                    · exact hstricti h1
            · simp only [updateFn] at hty
              rw [if_neg h] at hty
              exact hsome ty g hty

end ArenaAlloc

namespace ArenaAlloc

theorem allocate_pres_inv (a : Arena) (tyId v : Nat) (a' : Arena)
    (gen idx : Nat) (hal : a.allocate tyId v = some (a', gen, idx))
    (iss : Nat → Nat → List Nat) (hinv : ArenaInv a iss) :
    ArenaInv a' (updateIss iss tyId idx gen) ∧
    ∀ g0 ∈ iss tyId idx, g0 < gen := by
  obtain ⟨hnone, hsome⟩ := hinv
  rcases allocate_cases a tyId v a' gen idx hal with
    ⟨group, loc, rest, hd, hf, hl, hgen, ha⟩ | ⟨group, hd, hf, hi, hgen, ha⟩ |
    ⟨hd, hi, hgen, ha⟩
  · obtain ⟨hnd, hbound, hgens, hpw⟩ := hsome tyId group hd
    have hnd' : idx ∉ rest := by
      rw [hf] at hnd
      exact (List.nodup_cons.mp hnd).1
    have hstrict : ∀ g0 ∈ iss tyId idx, g0 < gen := by
      intro g0 hg0
      obtain ⟨loc0, hl0, hle0, hs0⟩ := hgens idx g0 hg0
      rw [hl] at hl0
      cases hl0
      have := hs0 (by rw [hf]; exact List.mem_cons_self idx rest)
      omega
    obtain ⟨hlt, -⟩ := List.get?_eq_some.mp hl
    refine ⟨⟨?_, ?_⟩, hstrict⟩
    · intro ty hty
      rw [ha] at hty
      simp only [updateFn] at hty
      by_cases h : ty = tyId
      · rw [if_pos h] at hty
        cases hty
      · rw [if_neg h] at hty
        intro i
        rw [updateIss_ne iss tyId idx gen ty i (fun hh => h hh.1)]
        exact hnone ty hty i
    · intro ty g hty
      rw [ha] at hty
      simp only [updateFn] at hty
      by_cases h : ty = tyId
      · subst h
        rw [if_pos rfl] at hty
        cases hty
        refine ⟨?_, ?_, ?_, ?_⟩
        · rw [hf] at hnd
          exact (List.nodup_cons.mp hnd).2
        · intro i hi
          rw [List.length_set]
          exact hbound i (by rw [hf]; exact List.mem_cons_of_mem idx hi)
        · intro i gen0 hgen0
          by_cases hij : i = idx
          · subst hij
            rw [updateIss_self] at hgen0
            rcases List.mem_cons.mp hgen0 with h1 | h1
            · subst h1
              refine ⟨⟨loc.generation, v⟩, List.get?_set_eq_of_lt _ hlt,
                show gen0 ≤ loc.generation by omega,
                fun hin => absurd hin hnd'⟩
            · have hlt0 := hstrict gen0 h1
              refine ⟨⟨loc.generation, v⟩, List.get?_set_eq_of_lt _ hlt,
                show gen0 ≤ loc.generation by omega,
                fun hin => absurd hin hnd'⟩
          · rw [updateIss_ne iss ty idx gen ty i
              (fun hh => hij hh.2)] at hgen0
            obtain ⟨loc0, hl0, hle0, hs0⟩ := hgens i gen0 hgen0
            refine ⟨loc0, ?_, hle0, ?_⟩
            · rw [List.get?_set_ne _ _ (fun hh => hij hh.symm)]
              exact hl0
            · intro hin
              exact hs0 (by rw [hf]; exact List.mem_cons_of_mem idx hin)
        · intro i
          by_cases hij : i = idx
          · subst hij
            rw [updateIss_self]
            exact List.pairwise_cons.mpr ⟨fun g0 hg0 => hstrict g0 hg0,
              hpw i⟩
          · rw [updateIss_ne iss ty idx gen ty i (fun hh => hij hh.2)]
            exact hpw i
      · rw [if_neg h] at hty
        exact GroupInv_congr g (iss ty) _
          (fun i => (updateIss_ne iss tyId idx gen ty i
            (fun hh => h hh.1)).symm)
          (hsome ty g hty)
  · obtain ⟨hnd, hbound, hgens, hpw⟩ := hsome tyId group hd
    have hempty : ∀ g0 ∈ iss tyId group.locations.length, False := by
      intro g0 hg0
      obtain ⟨loc0, hl0, -, -⟩ := hgens group.locations.length g0 hg0
      rw [List.get?_len_le (le_refl _)] at hl0
      cases hl0
    subst hi
    refine ⟨⟨?_, ?_⟩, fun g0 hg0 => (hempty g0 hg0).elim⟩
    · intro ty hty
      rw [ha] at hty
      simp only [updateFn] at hty
      by_cases h : ty = tyId
      · rw [if_pos h] at hty
        cases hty
      · rw [if_neg h] at hty
        intro i
        rw [updateIss_ne iss tyId group.locations.length gen ty i
          (fun hh => h hh.1)]
        exact hnone ty hty i
    · intro ty g hty
      rw [ha] at hty
      simp only [updateFn] at hty
      by_cases h : ty = tyId
      · subst h
        rw [if_pos rfl] at hty
        cases hty
        refine ⟨hnd, ?_, ?_, ?_⟩
        · intro i hi
          rw [hf] at hi
          cases hi
        · intro i gen0 hgen0
          by_cases hij : i = group.locations.length
          · subst hij
            rw [updateIss_self] at hgen0
            rcases List.mem_cons.mp hgen0 with h1 | h1
            · subst h1
              refine ⟨⟨0, v⟩, List.get?_concat_length _ _, ?_, ?_⟩
              · show gen0 ≤ (0 : Nat)
                omega
              · intro hin
                rw [hf] at hin
                cases hin
            · exact (hempty gen0 h1).elim
          · rw [updateIss_ne iss ty group.locations.length gen ty i
              (fun hh => hij hh.2)] at hgen0
            obtain ⟨loc0, hl0, hle0, hs0⟩ := hgens i gen0 hgen0
            obtain ⟨hlt0, -⟩ := List.get?_eq_some.mp hl0
            refine ⟨loc0, ?_, hle0, hs0⟩
            rw [List.get?_append hlt0]
            exact hl0
        · intro i
          by_cases hij : i = group.locations.length
          · subst hij
            rw [updateIss_self]
            exact List.pairwise_cons.mpr
              ⟨fun g0 hg0 => (hempty g0 hg0).elim, hpw _⟩
          · rw [updateIss_ne iss ty group.locations.length gen ty i
              (fun hh => hij hh.2)]
            exact hpw i
      · rw [if_neg h] at hty
        exact GroupInv_congr g (iss ty) _
          (fun i => (updateIss_ne iss tyId group.locations.length gen ty i
            (fun hh => h hh.1)).symm)
          (hsome ty g hty)
  · have hiz : ∀ i, iss tyId i = [] := hnone tyId hd
    subst hi
    refine ⟨⟨?_, ?_⟩, fun g0 hg0 => ?_⟩
    · intro ty hty
      rw [ha] at hty
      simp only [updateFn] at hty
      by_cases h : ty = tyId
      · rw [if_pos h] at hty
        cases hty
      · rw [if_neg h, if_neg h] at hty
        intro i
        rw [updateIss_ne iss tyId 0 gen ty i (fun hh => h hh.1)]
        exact hnone ty hty i
    · intro ty g hty
      rw [ha] at hty
      simp only [updateFn] at hty
      by_cases h : ty = tyId
      · subst h
        rw [if_pos rfl] at hty
        cases hty
        refine ⟨List.nodup_nil, ?_, ?_, ?_⟩
        · intro i hi
          cases hi
        · intro i gen0 hgen0
          by_cases hij : i = 0
          · subst hij
            rw [updateIss_self, hiz 0] at hgen0
            rcases List.mem_cons.mp hgen0 with h1 | h1
            · subst h1
              refine ⟨⟨0, v⟩, rfl, ?_, fun hin => (List.not_mem_nil _ hin).elim⟩
              show gen0 ≤ (0 : Nat)
              omega
            · cases h1
          · rw [updateIss_ne iss ty 0 gen ty i (fun hh => hij hh.2),
              hiz i] at hgen0
            cases hgen0
        · intro i
          by_cases hij : i = 0
          · subst hij
            rw [updateIss_self, hiz 0]
            exact List.pairwise_cons.mpr
              ⟨fun g0 hg0 => (List.not_mem_nil _ hg0).elim,
                List.Pairwise.nil⟩
          · rw [updateIss_ne iss ty 0 gen ty i (fun hh => hij hh.2),
              hiz i]
            exact List.Pairwise.nil
      · rw [if_neg h, if_neg h] at hty
        exact GroupInv_congr g (iss ty) _
          (fun i => (updateIss_ne iss tyId 0 gen ty i
            (fun hh => h hh.1)).symm)
          (hsome ty g hty)
    · rw [hiz 0] at hg0
      cases hg0

end ArenaAlloc

namespace ArenaAlloc

theorem step_pres_inv (s : TState) (op : Op) (hok : opOk s op = true)
    (hinv : Inv s) : Inv (s.step op) := by
  cases op with
  | alloc ty v =>
    cases hal : s.world.allocate ty v with
    | none =>
      rw [step_alloc_none s ty v hal]
      exact hinv
    | some p =>
      obtain ⟨w', ad⟩ := p
      rw [step_alloc_some s ty v w' ad hal]
      unfold World.allocate at hal
      cases hala : s.world.arena.allocate ty v with
      | none => rw [hala] at hal; cases hal
      | some q =>
        obtain ⟨ar, gen, idx⟩ := q
        rw [hala] at hal
        cases hal
        show ArenaInv ar (updateIss s.issued ty idx gen)
        exact (allocate_pres_inv s.world.arena ty v ar gen idx hala
          s.issued hinv).1
  | copyOp ad => exact hinv
  | cloneOp ad => exact hinv
  | dropOp ad =>
    rw [step_drop s ad]
    show ArenaInv (Address.drop s.world ad).arena s.issued
    have hmem : ad.generation ∈ s.issued ad.tyId ad.index :=
      List.mem_of_elem_eq_true hok
    rcases drop_arena s.world ad with h | h
    · rw [h]
      exact hinv
    · rw [h]
      exact free_pres_inv s.world.arena ad s.issued hinv hmem
  | removeOp ad =>
    rw [step_remove s ad]
    show ArenaInv (Address.remove s.world ad).arena s.issued
    rw [remove_arena]
    exact free_pres_inv s.world.arena ad s.issued hinv
      (List.mem_of_elem_eq_true hok)

theorem run_pres_inv (tr : List Op) (s : TState)
    (htr : traceOk s tr = true) (hinv : Inv s) :
    Inv (TState.run s tr) := by
  induction tr generalizing s with
  | nil => exact hinv
  | cons op tr ih =>
    simp only [traceOk, Bool.and_eq_true] at htr
    exact ih (s.step op) htr.2 (step_pres_inv s op htr.1 hinv)

theorem init_inv (cap : Nat) : Inv (TState.init cap) := by
  constructor
  · intro ty hty i
    rfl
  · intro ty g hty
    exact Option.noConfusion hty

/-- C1: along any trace of well-formed operations from a fresh arena, the
generations issued per index form a strictly increasing sequence (stored
newest-first, so pairwise decreasing towards the past); no operation ever
decreases a slot's stored generation; `free`, when it acts on a live
matching slot, increments the generation by exactly 1; and any allocation
(in particular any reuse of a freed index) hands out a generation strictly
greater than every generation previously issued for that index. -/
theorem generation_monotonicity (cap : Nat) (tr : List Op)
    (htr : traceOk (TState.init cap) tr = true) :
    (∀ ty i, ((reach cap tr).issued ty i).Pairwise (fun x y => y < x)) ∧
    (∀ op ty i g,
      slotGen (reach cap tr).world.arena ty i = some g →
      ∃ g', slotGen ((reach cap tr).step op).world.arena ty i = some g' ∧
        g ≤ g') ∧
    (∀ ad : Address,
      groupLive (reach cap tr).world.arena ad.tyId = true →
      slotGen (reach cap tr).world.arena ad.tyId ad.index =
        some ad.generation →
      slotGen ((reach cap tr).world.arena.free ad) ad.tyId ad.index =
        some (ad.generation + 1)) ∧
    (∀ ty v w' ad, (reach cap tr).world.allocate ty v = some (w', ad) →
      ∀ g0 ∈ (reach cap tr).issued ty ad.index, g0 < ad.generation) := by
  have hinv : Inv (reach cap tr) :=
    run_pres_inv tr (TState.init cap) htr (init_inv cap)
  obtain ⟨hnone, hsome⟩ := hinv
  refine ⟨?_, ?_, ?_, ?_⟩
  · intro ty i
    cases hd : (reach cap tr).world.arena.data ty with
    | none =>
      rw [hnone ty hd i]
      exact List.Pairwise.nil
    | some g => exact (hsome ty g hd).2.2.2 i
  · intro op ty i g hg
    exact step_slotGen_mono (reach cap tr) op ty i g hg
  · intro ad hlive hgen
    exact (free_act_slotGen _ ad hlive hgen).1
  · intro ty v w' ad hal g0 hg0
    unfold World.allocate at hal
    cases hala : (reach cap tr).world.arena.allocate ty v with
    | none => rw [hala] at hal; cases hal
    | some q =>
      obtain ⟨ar, gen, idx⟩ := q
      rw [hala] at hal
      cases hal
      exact (allocate_pres_inv _ ty v ar gen idx hala _
        ⟨hnone, hsome⟩).2 g0 hg0

/-- Witness for C1: the trace allocate, drop, allocate on one index issues
the strictly increasing generations 0 then 1. -/
theorem generation_monotonicity_witness :
    traceOk (TState.init 16)
      [Op.alloc 0 5, Op.dropOp ⟨0, 0, 0, 0⟩, Op.alloc 0 7] = true ∧
    ((reach 16 [Op.alloc 0 5, Op.dropOp ⟨0, 0, 0, 0⟩,
      Op.alloc 0 7]).issued 0 0).Pairwise (fun x y => y < x) :=
  ⟨by decide,
    (generation_monotonicity 16 [Op.alloc 0 5, Op.dropOp ⟨0, 0, 0, 0⟩,
      Op.alloc 0 7] (by decide)).1 0 0⟩

end ArenaAlloc
